import Mathlib

/-!
Shallow embedding of the blackjack simulator (packages `ai` and the
`basicAI` driver strategy) and verification of its specification claims.

Go `int` is modelled by `Int` (scores, which are sums of card values,
stay in `Nat`).  Go slices are `List`s; drawing from the front of the
shoe is taking the head.  A Go panic is modelled by the `.panic`
constructor of the move-result type (or `none`/`Option` where noted);
a returned `error` value by `.err`.  Go's truncating integer division
is `Int.tdiv`; the `float64` blackjack payout is modelled by `ℚ` with
`int(...)` conversion as truncation toward zero, which agrees with
`float64` arithmetic on the integer bet sizes and payout 1.5 used by
the program.
-/

namespace BlackjackSim

/-- Card ranks, Ace = 1 through King = 13, as in the deck package. -/
inductive Rank where
  | ace | two | three | four | five | six | seven
  | eight | nine | ten | jack | queen | king
deriving DecidableEq, Repr

/-- Numeric value of a rank as the Go `int(c.Rank)`: Ace = 1 … King = 13. -/
def Rank.toNat : Rank → Nat
  | .ace => 1 | .two => 2 | .three => 3 | .four => 4 | .five => 5
  | .six => 6 | .seven => 7 | .eight => 8 | .nine => 9 | .ten => 10
  | .jack => 11 | .queen => 12 | .king => 13

/-- Suits; the Joker sentinel is never used in play. -/
inductive Suit where
  | spade | diamond | club | heart | joker
deriving DecidableEq, Repr

/-- A playing card: rank and suit. -/
structure Card where
  rank : Rank
  suit : Suit
deriving DecidableEq, Repr

/-- Go `minScore`: left fold over the hand adding `min(int(c.Rank), 10)`. -/
def minScore (hand : List Card) : Nat :=
  hand.foldl (fun s c => s + min c.rank.toNat 10) 0

/-- Go `Score`: `minScore` if it exceeds 11, otherwise `minScore + 10`
when the hand contains an Ace (found by the source's linear scan). -/
def Score (hand : List Card) : Nat :=
  let m := minScore hand
  if m > 11 then m
  else if hand.any (fun c => c.rank = Rank.ace) then m + 10
  else m

/-- Go `Soft`: true iff the score differs from the minimum score. -/
def Soft (hand : List Card) : Bool :=
  minScore hand ≠ Score hand

/-- Go `Blackjack`: exactly two cards scoring 21. -/
def Blackjack (hand : List Card) : Bool :=
  hand.length = 2 && Score hand = 21

/-- The round state (Go `state int8`): player turn, dealer turn, hand over. -/
inductive GState where
  | playerTurn | dealerTurn | handOver
deriving DecidableEq, Repr

/-- Go `state++`: the linear successor of a round state. -/
def GState.next : GState → GState
  | .playerTurn => .dealerTurn
  | .dealerTurn => .handOver
  | .handOver => .handOver

/-- Position of a state in the strict linear progression. -/
def GState.rank : GState → Nat
  | .playerTurn => 0 | .dealerTurn => 1 | .handOver => 2

/-- A player hand: its cards and the bet placed on it (Go `hand`). -/
structure Hand where
  cards : List Card
  bet : Int
deriving DecidableEq, Repr

/-- The Go `Game` struct.  The shoe `deck` is drawn from the front. -/
structure Game where
  nDecks : Nat
  nHands : Nat
  blackjackPayout : ℚ
  deck : List Card
  state : GState
  player : List Hand
  handIdx : Nat
  playerBet : Int
  balance : Int
  dealer : List Card
deriving DecidableEq, Repr

/-- The Go `error` values a move can return. -/
inductive MoveErr where
  | bust          -- errBust: hand score exceeded 21
  | splitLen      -- "You can only split with two cards in your hand"
  | splitRank     -- "Both cards must have the same rank to split"
  | doubleLen     -- "Can only double on a hand with 2 cards"
  | invalidState  -- "Invalid state"
deriving DecidableEq, Repr

/-- Result of running a Go move: a panic, a returned error together with
the (possibly mutated) game, or success with the new game. -/
inductive Res where
  | panic
  | err (e : MoveErr) (g : Game)
  | ok (g : Game)
deriving DecidableEq, Repr

/-- Go `currentHand`: the cards the active-hand pointer designates, or
`none` when the Go code panics (hand-over state, or an out-of-range
`g.player[g.handIdx]` access). -/
def currentHand (g : Game) : Option (List Card) :=
  match g.state with
  | .playerTurn => (g.player[g.handIdx]?).map Hand.cards
  | .dealerTurn => some g.dealer
  | .handOver => none

/-- Writing through the `currentHand` pointer: replace the cards it
designates.  Only invoked after `currentHand` returned `some`, so the
fall-through branches are never exercised. -/
def setCurrentHand (g : Game) (cs : List Card) : Game :=
  match g.state with
  | .playerTurn =>
    match g.player[g.handIdx]? with
    | some h => { g with player := g.player.set g.handIdx { h with cards := cs } }
    | none => g
  | .dealerTurn => { g with dealer := cs }
  | .handOver => g

/-- Go `MoveHit`: draw the top card of the shoe into the current hand;
report `errBust` when the new score exceeds 21.  Drawing from an empty
shoe is a panic (`cards[0]` on an empty slice). -/
def MoveHit (g : Game) : Res :=
  match currentHand g with
  | none => .panic
  | some cs =>
    match g.deck with
    | [] => .panic
    | card :: rest =>
      let cs' := cs ++ [card]
      let g' := setCurrentHand { g with deck := rest } cs'
      if Score cs' > 21 then .err .bust g' else .ok g'

/-- Go `MoveSplit`: with exactly two cards of equal rank in the current
hand, append a new hand holding the second card (with the bet of
`g.player[g.handIdx]`) to the end of the hand list and truncate the
current hand to its first card. -/
def MoveSplit (g : Game) : Res :=
  match currentHand g with
  | none => .panic
  | some cs =>
    if cs.length ≠ 2 then .err .splitLen g
    else if (cs[0]?).map Card.rank ≠ (cs[1]?).map Card.rank then .err .splitRank g
    else
      match g.player[g.handIdx]? with
      | none => .panic
      | some h =>
        let grown := g.player ++ [⟨cs.drop 1, h.bet⟩]
        .ok { g with player := grown.set g.handIdx { h with cards := cs.take 1 } }

/-- Go `MoveStand`: in dealer turn advance to hand-over; in player turn
advance the hand index, moving to dealer turn when it passes the last
hand; otherwise return the invalid-state error. -/
def MoveStand (g : Game) : Res :=
  match g.state with
  | .dealerTurn => .ok { g with state := g.state.next }
  | .playerTurn =>
    let idx := g.handIdx + 1
    if idx ≥ g.player.length then .ok { g with handIdx := idx, state := GState.playerTurn.next }
    else .ok { g with handIdx := idx }
  | .handOver => .err .invalidState g

/-- Go `MoveDouble`: requires exactly two cards in the current hand;
doubles `g.playerBet`, performs `MoveHit` discarding its error, and
returns the result of `MoveStand`. -/
def MoveDouble (g : Game) : Res :=
  match currentHand g with
  | none => .panic
  | some cs =>
    if cs.length ≠ 2 then .err .doubleLen g
    else
      match MoveHit { g with playerBet := g.playerBet * 2 } with
      | .panic => .panic
      | .err _ g' => MoveStand g'
      | .ok g' => MoveStand g'

/-- The four move kinds a strategy can return. -/
inductive MoveK where
  | hit | stand | double | split
deriving DecidableEq, Repr

/-- Dispatch a move kind to its Go move function. -/
def applyMove : MoveK → Game → Res
  | .hit => MoveHit
  | .stand => MoveStand
  | .double => MoveDouble
  | .split => MoveSplit

/-- Go `deal`: reset the hand index, draw player-dealer-player-dealer
from the front of the shoe, install a single player hand carrying
`g.playerBet`, and set the state to player turn.  `none` models the
panic of drawing from a shoe with fewer than four cards. -/
def deal (g : Game) : Option Game :=
  match g.deck with
  | p1 :: d1 :: p2 :: d2 :: rest =>
    some { g with deck := rest, handIdx := 0,
                  dealer := [d1, d2],
                  player := [⟨[p1, p2], g.playerBet⟩],
                  state := .playerTurn }
  | _ => none

/-- Truncation of a rational toward zero, the effect of Go's
`int(...)` conversion on an exactly-represented `float64` value. -/
def ratTrunc (q : ℚ) : Int :=
  Int.tdiv q.num q.den

/-- The per-hand settlement of Go `endRound`'s switch: starting from
`winnings := hand.bet`, adjust by the blackjack/bust/push rules in
source order. -/
def handWinnings (payout : ℚ) (dScore : Nat) (dBlackjack : Bool) (h : Hand) : Int :=
  let pScore := Score h.cards
  let pBlackjack := Blackjack h.cards
  let winnings := h.bet
  if pBlackjack && dBlackjack then 0
  else if dBlackjack || decide (pScore > 21) then -winnings
  else if pBlackjack then ratTrunc ((winnings : ℚ) * payout)
  else if decide (dScore > 21) || decide (pScore > dScore) then winnings
  else if dScore = pScore then 0
  else -winnings

/-- Go `endRound`: fold every player hand's settlement into the balance
(using the dealer's final score and blackjack flag), then clear the
player and dealer hands.  The strategy's `Results` callback mutates only
strategy-owned state and is modelled separately. -/
def endRound (g : Game) : Game :=
  let dScore := Score g.dealer
  let dBlackjack := Blackjack g.dealer
  { g with balance := g.player.foldl (fun b h => b + handWinnings g.blackjackPayout dScore dBlackjack h) g.balance,
           player := [],
           dealer := [] }

/-- The fixed dealer policy (Go `dealerAI.Play`): hit on 16 or lower,
hit on soft 17, otherwise stand. -/
def dealerPlay (hand : List Card) : MoveK :=
  let dScore := Score hand
  if dScore ≤ 16 ∨ (dScore = 17 ∧ Soft hand = true) then .hit
  else .stand

/-- A player strategy's `Play`: from a snapshot of the acting hand and
the dealer's visible card, choose a move. -/
def Strat : Type := List Card → Card → MoveK

/-- Go `MoveStand(g)` with its return value discarded, as the player
loop does after a bust (the `.panic` branch is unreachable:
`MoveStand` never panics). -/
def standDiscard (g : Game) : Game :=
  match MoveStand g with
  | .ok g' => g'
  | .err _ g' => g'
  | .panic => g

/-- One iteration of the Go player-turn loop body: snapshot the current
hand, call the strategy's `Play` once with it and the dealer's up card,
apply the returned move; `errBust` is converted to `MoveStand`, any
other returned error is a panic.  Returns the new game and the snapshot
passed to this iteration's single `Play` call (`none` models a panic). -/
def playerStep (strat : Strat) (g : Game) : Option (Game × List Card) :=
  match currentHand g, g.dealer.head? with
  | some snap, some up =>
    match applyMove (strat snap up) g with
    | .panic => .none
    | .err .bust g' => some (standDiscard g', snap)
    | .err _ _ => .none
    | .ok g' => some (g', snap)
  | _, _ => .none

/-- The Go player-turn loop, fuel-bounded: iterate `playerStep` while
the state is the player's turn, collecting the hand snapshots passed to
the strategy's `Play` (one per iteration).  `none` models a panic or
fuel exhaustion. -/
def playerLoop (strat : Strat) : Nat → Game → Option (Game × List (List Card))
  | 0, g => if g.state = .playerTurn then none else some (g, [])
  | fuel + 1, g =>
    if g.state = .playerTurn then
      match playerStep strat g with
      | none => none
      | some (g', snap) =>
        match playerLoop strat fuel g' with
        | none => none
        | some (gf, snaps) => some (gf, snap :: snaps)
    else some (g, [])

/-- One iteration of the Go dealer-turn loop body: call the dealer
policy on a snapshot of the dealer hand and `g.dealer[0]`, apply the
move, discarding any returned error.  `none` models a panic
(`g.dealer[0]` on an empty dealer hand, or a panicking move). -/
def dealerStep (g : Game) : Option Game :=
  match g.dealer.head? with
  | none => none
  | some _ =>
    match applyMove (dealerPlay g.dealer) g with
    | .panic => none
    | .err _ g' => some g'
    | .ok g' => some g'

/-- The Go dealer-turn loop, fuel-bounded: iterate `dealerStep` while
the state is the dealer's turn, counting the dealer policy `Play`
invocations. -/
def dealerLoop : Nat → Game → Option (Game × Nat)
  | 0, g => if g.state = .dealerTurn then none else some (g, 0)
  | fuel + 1, g =>
    if g.state = .dealerTurn then
      match dealerStep g with
      | none => none
      | some g' =>
        match dealerLoop fuel g' with
        | none => none
        | some (gf, n) => some (gf, n + 1)
    else some (g, 0)

/-- One iteration of Go `Game.Play`'s round loop, after the reshuffle
check: record the strategy's bet (panicking below 100), deal, settle
immediately on a dealt dealer blackjack, otherwise run the player loop
then the dealer loop and settle.  Returns the finished game, the hand
snapshots passed to the player strategy's `Play`, and the number of
dealer policy `Play` invocations. -/
def playRound (strat : Strat) (betAmt : Int) (pfuel dfuel : Nat) (g : Game) :
    Option (Game × List (List Card) × Nat) :=
  if betAmt < 100 then none
  else
    match deal { g with playerBet := betAmt } with
    | none => none
    | some g1 =>
      if Blackjack g1.dealer then some (endRound g1, [], 0)
      else
        match playerLoop strat pfuel g1 with
        | none => none
        | some (g2, snaps) =>
          match dealerLoop dfuel g2 with
          | none => none
          | some (g3, n) => some (endRound g3, snaps, n)

/-- The card-counting strategy's instance state (Go `basicAI`). -/
structure BasicAI where
  score : Int
  seen : Int
  decks : Int
deriving DecidableEq, Repr

/-- Go `basicAI.count`: decrement the running count on a card scoring
10 or more, increment on 6 or less, and always bump `seen`. -/
def BasicAI.countCard (bi : BasicAI) (c : Card) : BasicAI :=
  let score := Score [c]
  let bi' :=
    if score ≥ 10 then { bi with score := bi.score - 1 }
    else if score ≤ 6 then { bi with score := bi.score + 1 }
    else bi
  { bi' with seen := bi'.seen + 1 }

/-- Go `basicAI.Results`: count the dealer's cards, then every card of
every player hand. -/
def BasicAI.resultsUpdate (bi : BasicAI) (hands : List (List Card)) (dealer : List Card) : BasicAI :=
  hands.foldl (fun b h => h.foldl BasicAI.countCard b) (dealer.foldl BasicAI.countCard bi)

/-- Go `basicAI.Bet`: reset the count on a shuffle, then bet by the
true count `bi.score / ((bi.decks*52 - bi.seen) / 52)` with Go's
truncating division.  `none` models the division-by-zero panic when the
inner quotient is zero; otherwise the bet and the post-call state. -/
def BasicAI.betAmount (bi : BasicAI) (shuffled : Bool) : Option (Int × BasicAI) :=
  let bi := if shuffled then { bi with score := 0, seen := 0 } else bi
  let divisor := Int.tdiv (bi.decks * 52 - bi.seen) 52
  if divisor = 0 then none
  else
    let trueScore := Int.tdiv bi.score divisor
    if trueScore ≥ 14 then some (100000, bi)
    else if trueScore ≥ 8 then some (5000, bi)
    else some (100, bi)

/-- The `basicAI` instance `main` constructs: zero count, four decks. -/
def initialBasicAI : BasicAI := ⟨0, 0, 4⟩

/-- Counting states reachable through the strategy's own interface:
the initial state, a `Results` call, or a non-panicking `Bet` call. -/
inductive BasicAI.Reach : BasicAI → Prop where
  | start : BasicAI.Reach initialBasicAI
  | results (bi : BasicAI) (hands : List (List Card)) (dealer : List Card) :
      BasicAI.Reach bi → BasicAI.Reach (bi.resultsUpdate hands dealer)
  | betCall (bi bi' : BasicAI) (sh : Bool) (amt : Int) :
      BasicAI.Reach bi → bi.betAmount sh = some (amt, bi') → BasicAI.Reach bi'

/-- Settlement table as the spec words it, a pure function of the six
inputs `(pScore, pBlackjack, dScore, dBlackjack, bet, payoutMultiplier)`
with its rules checked in order; written to be compared against the
source-derived `handWinnings`. -/
def settleSpec (pScore : Nat) (pBlackjack : Bool) (dScore : Nat) (dBlackjack : Bool)
    (bet : Int) (payout : ℚ) : Int :=
  if pBlackjack = true ∧ dBlackjack = true then 0
  else if dBlackjack = true ∨ pScore > 21 then -bet
  else if pBlackjack = true then ratTrunc ((bet : ℚ) * payout)
  else if dScore > 21 ∨ pScore > dScore then bet
  else if pScore = dScore then 0
  else -bet

/-- Folding an addition over a list equals the start plus the sum of
the mapped list. -/
theorem foldl_add_sum {M : Type} [AddCommMonoid M] {α : Type} (f : α → M)
    (l : List α) (a : M) :
    l.foldl (fun s c => s + f c) a = a + (l.map f).sum := by
  induction l generalizing a with
  | nil => simp
  | cons x xs ih => simp [ih, add_assoc]

/-- Claim C6: `Score` returns `minScore` when `minScore` exceeds 11 or
the hand contains no Ace, and `minScore + 10` otherwise, where
`minScore` is the sum of each card's rank value capped at 10 (Ace
counting 1); an empty hand scores 0 and is never a blackjack. -/
theorem score_spec :
    (∀ hand : List Card,
      minScore hand = (hand.map (fun c => min c.rank.toNat 10)).sum ∧
      Score hand =
        if 11 < minScore hand ∨ (∀ c ∈ hand, c.rank ≠ Rank.ace) then minScore hand
        else minScore hand + 10) ∧
    Score [] = 0 ∧ Blackjack [] = false := by
  refine ⟨fun hand => ⟨?_, ?_⟩, by decide, by decide⟩
  · simpa using foldl_add_sum (fun c => min c.rank.toNat 10) hand 0
  · by_cases h1 : 11 < minScore hand
    · simp [Score, h1]
    · by_cases h2 : ∃ c ∈ hand, c.rank = Rank.ace
      · have hany : hand.any (fun c => c.rank = Rank.ace) = true := by
          simpa [List.any_eq_true] using h2
        have : ¬ (∀ c ∈ hand, c.rank ≠ Rank.ace) := by
          obtain ⟨c, hc, hr⟩ := h2
          exact fun hall => hall c hc hr
        simp [Score, h1, hany, this]
      · have hany : hand.any (fun c => c.rank = Rank.ace) = false := by
          simpa [List.any_eq_false] using fun c hc => (fun hr => h2 ⟨c, hc, hr⟩)
        have hall : ∀ c ∈ hand, c.rank ≠ Rank.ace := fun c hc hr => h2 ⟨c, hc, hr⟩
        simp only [Score, h1, hany, if_false, Bool.false_eq_true]
        rw [if_pos (Or.inr hall)]

/-- Claim C7: the fixed dealer policy hits exactly when the hand's
score is at most 16, or it is exactly 17 and soft; otherwise it
stands. -/
theorem dealer_policy_spec (hand : List Card) :
    (dealerPlay hand = .hit ↔ (Score hand ≤ 16 ∨ (Score hand = 17 ∧ Soft hand = true))) ∧
    (dealerPlay hand = .stand ↔ ¬ (Score hand ≤ 16 ∨ (Score hand = 17 ∧ Soft hand = true))) := by
  unfold dealerPlay
  by_cases h : Score hand ≤ 16 ∨ (Score hand = 17 ∧ Soft hand = true) <;> simp [h]

/-- Claim C2: the per-hand settlement is the pure function of
`(pScore, pBlackjack, dScore, dBlackjack, bet, payout)` given by the
spec's ordered rules, and the round's balance change is the sum of the
per-hand outcomes over all player hands. -/
theorem settlement_spec :
    (∀ (payout : ℚ) (dScore : Nat) (dBlackjack : Bool) (h : Hand),
       handWinnings payout dScore dBlackjack h =
         settleSpec (Score h.cards) (Blackjack h.cards) dScore dBlackjack h.bet payout) ∧
    (∀ g : Game,
       (endRound g).balance =
         g.balance +
           (g.player.map (handWinnings g.blackjackPayout (Score g.dealer) (Blackjack g.dealer))).sum) := by
  constructor
  · intro payout dScore dBlackjack h
    cases hp : Blackjack h.cards <;> cases hd : dBlackjack
    · by_cases hbust : Score h.cards > 21
      · simp [handWinnings, settleSpec, hp, hd, hbust]
      · by_cases hwin : dScore > 21 ∨ Score h.cards > dScore
        · simp [handWinnings, settleSpec, hp, hd, hbust, hwin]
        · by_cases hpush : Score h.cards = dScore
          · simp [handWinnings, settleSpec, hp, hd, hbust, hwin, hpush]
          · have hpush' : ¬ dScore = Score h.cards := fun e => hpush e.symm
            simp [handWinnings, settleSpec, hp, hd, hbust, hwin, hpush, hpush']
    · simp [handWinnings, settleSpec, hp, hd]
    · have hp21 : Score h.cards = 21 := by
        have h2 := hp
        simp [Blackjack] at h2
        exact h2.2
      simp [handWinnings, settleSpec, hp, hd, hp21]
    · simp [handWinnings, settleSpec, hp, hd]
  · intro g
    unfold endRound
    simpa using foldl_add_sum
      (handWinnings g.blackjackPayout (Score g.dealer) (Blackjack g.dealer)) g.player g.balance

/-- Claim C10: with the round over, `MoveHit`, `MoveDouble` and
`MoveSplit` all panic through `currentHand`, while `MoveStand` returns
the invalid-state error without panicking or mutating the game. -/
theorem roundOver_moves (g : Game) (h : g.state = .handOver) :
    MoveHit g = .panic ∧ MoveDouble g = .panic ∧ MoveSplit g = .panic ∧
    MoveStand g = .err .invalidState g := by
  refine ⟨?_, ?_, ?_, ?_⟩ <;> simp [MoveHit, MoveDouble, MoveSplit, MoveStand, currentHand, h]

/-- Concrete instance of `roundOver_moves`: a hand-over game where the
three hand-reading moves panic and `MoveStand` errors. -/
theorem roundOver_moves_witness :
    MoveHit ⟨3, 100, 3/2, [], .handOver, [], 0, 100, 0, []⟩ = .panic ∧
    MoveDouble ⟨3, 100, 3/2, [], .handOver, [], 0, 100, 0, []⟩ = .panic ∧
    MoveSplit ⟨3, 100, 3/2, [], .handOver, [], 0, 100, 0, []⟩ = .panic ∧
    MoveStand ⟨3, 100, 3/2, [], .handOver, [], 0, 100, 0, []⟩ =
      .err .invalidState ⟨3, 100, 3/2, [], .handOver, [], 0, 100, 0, []⟩ :=
  roundOver_moves ⟨3, 100, 3/2, [], .handOver, [], 0, 100, 0, []⟩ rfl

/-- Claim C3, counterexample: in a player-turn state with two hands
where the active hand (index 0) holds two Eights, `MoveSplit` appends
the new one-card Eight hand at the end of the hand list, so the slot
immediately after the current hand still holds the pre-existing Two
hand — not the new hand, as the claim requires. -/
theorem moveSplit_order_counterexample :
    MoveSplit ⟨3, 100, 3/2, [], .playerTurn,
        [⟨[⟨.eight, .spade⟩, ⟨.eight, .heart⟩], 100⟩, ⟨[⟨.two, .spade⟩], 100⟩],
        0, 100, 0, [⟨.ten, .club⟩, ⟨.seven, .club⟩]⟩ =
      .ok ⟨3, 100, 3/2, [], .playerTurn,
        [⟨[⟨.eight, .spade⟩], 100⟩, ⟨[⟨.two, .spade⟩], 100⟩, ⟨[⟨.eight, .heart⟩], 100⟩],
        0, 100, 0, [⟨.ten, .club⟩, ⟨.seven, .club⟩]⟩ ∧
    [⟨[⟨.eight, .spade⟩], 100⟩, ⟨[⟨.two, .spade⟩], 100⟩,
        (⟨[⟨.eight, .heart⟩], 100⟩ : Hand)][1]? ≠ some ⟨[⟨.eight, .heart⟩], 100⟩ := by
  exact ⟨rfl, by decide⟩

/-- Claim C3, amended: splitting a two-card equal-rank active hand
truncates it to its first card and appends a new hand holding the
second card, each with the original bet, at the end of the hand list
(hence immediately after the current hand only when the current hand
is last); any other active hand leaves the state unmutated with an
error. -/
theorem moveSplit_spec (g : Game) (h : Hand)
    (hstate : g.state = .playerTurn) (hhand : g.player[g.handIdx]? = some h) :
    (∀ c0 c1 : Card, ∀ b : Int, h = ⟨[c0, c1], b⟩ → c0.rank = c1.rank →
        MoveSplit g = .ok { g with
          player := g.player.set g.handIdx ⟨[c0], b⟩ ++ [⟨[c1], b⟩] }) ∧
    (h.cards.length ≠ 2 → MoveSplit g = .err .splitLen g) ∧
    (∀ c0 c1 : Card, ∀ b : Int, h = ⟨[c0, c1], b⟩ → c0.rank ≠ c1.rank →
        MoveSplit g = .err .splitRank g) := by
  have hidx : g.handIdx < g.player.length := (List.getElem?_eq_some_iff.mp hhand).1
  have hcur : currentHand g = some h.cards := by
    simp [currentHand, hstate, hhand]
  refine ⟨?_, ?_, ?_⟩
  · rintro c0 c1 b rfl hrank
    simp only [MoveSplit, hcur, hhand]
    rw [← List.set_append_left g.handIdx (⟨[c0], b⟩ : Hand) hidx]
    simp [hrank]
  · intro hlen
    simp [MoveSplit, hcur, hlen]
  · rintro c0 c1 b rfl hrank
    simp [MoveSplit, hcur, hrank]

/-- Concrete instance of `moveSplit_spec`: splitting a lone pair of
Eights yields the two one-card hands each betting 100, and a one-card
or unequal-rank hand is rejected unchanged. -/
theorem moveSplit_spec_witness :
    MoveSplit ⟨3, 100, 3/2, [], .playerTurn,
        [⟨[⟨.eight, .spade⟩, ⟨.eight, .heart⟩], 100⟩], 0, 100, 0, []⟩ =
      .ok ⟨3, 100, 3/2, [], .playerTurn,
        [⟨[⟨.eight, .spade⟩], 100⟩, ⟨[⟨.eight, .heart⟩], 100⟩], 0, 100, 0, []⟩ := by
  have h := (moveSplit_spec
      ⟨3, 100, 3/2, [], .playerTurn,
        [⟨[⟨.eight, .spade⟩, ⟨.eight, .heart⟩], 100⟩], 0, 100, 0, []⟩
      ⟨[⟨.eight, .spade⟩, ⟨.eight, .heart⟩], 100⟩ rfl rfl).1
      ⟨.eight, .spade⟩ ⟨.eight, .heart⟩ 100 rfl rfl
  simpa using h

/-- Claim C1, failing input: a valid double on the lone hand
[Five♠, Six♠] with bet 100 and shoe [Ten♠].  `MoveDouble` succeeds —
it draws the Ten and forces the stand — but the hand settles with its
original bet 100: only `Game.playerBet` (a field the settlement never
reads) is doubled to 200, so a winning 21 against a dealer 19 pays
100 where the claim (and the spec's double rule) require 200. -/
theorem moveDouble_bet_dead_write :
    MoveDouble ⟨3, 100, 3/2, [⟨.ten, .spade⟩], .playerTurn,
        [⟨[⟨.five, .spade⟩, ⟨.six, .spade⟩], 100⟩], 0, 100, 0,
        [⟨.ten, .heart⟩, ⟨.nine, .heart⟩]⟩ =
      .ok ⟨3, 100, 3/2, [], .dealerTurn,
        [⟨[⟨.five, .spade⟩, ⟨.six, .spade⟩, ⟨.ten, .spade⟩], 100⟩], 1, 200, 0,
        [⟨.ten, .heart⟩, ⟨.nine, .heart⟩]⟩ ∧
    handWinnings (3/2) 19 false ⟨[⟨.five, .spade⟩, ⟨.six, .spade⟩, ⟨.ten, .spade⟩], 100⟩ = 100 := by
  exact ⟨rfl, by decide⟩

/-- The game after a successful hit: the top card `c` moved from the
shoe (leaving `rest`) into the active hand `h`. -/
def afterHit (g : Game) (h : Hand) (c : Card) (rest : List Card) : Game :=
  { g with deck := rest, player := g.player.set g.handIdx ⟨h.cards ++ [c], h.bet⟩ }

/-- Claim C4: `MoveHit` moves exactly the front card of the shoe into
the active hand and signals a bust exactly when the new score exceeds
21; on that signal the player-turn loop iteration applies a stand —
advancing the hand index, to the next hand or to the dealer's turn —
after exactly one `Play` call (the recorded snapshot) and without
consulting the strategy again. -/
theorem moveHit_bust_spec (strat : Strat) (g : Game) (h : Hand) (c up : Card)
    (rest dtl : List Card)
    (hstate : g.state = .playerTurn) (hhand : g.player[g.handIdx]? = some h)
    (hdeck : g.deck = c :: rest) (hdealer : g.dealer = up :: dtl) :
    (MoveHit g =
      if Score (h.cards ++ [c]) > 21 then .err .bust (afterHit g h c rest)
      else .ok (afterHit g h c rest)) ∧
    (strat h.cards up = .hit → Score (h.cards ++ [c]) > 21 →
      playerStep strat g = some (standDiscard (afterHit g h c rest), h.cards)) ∧
    (standDiscard (afterHit g h c rest)).handIdx = g.handIdx + 1 ∧
    (g.handIdx + 1 < g.player.length →
      (standDiscard (afterHit g h c rest)).state = .playerTurn) ∧
    (g.player.length ≤ g.handIdx + 1 →
      (standDiscard (afterHit g h c rest)).state = .dealerTurn) := by
  have hcur : currentHand g = some h.cards := by
    simp [currentHand, hstate, hhand]
  have hset : setCurrentHand { g with deck := rest } (h.cards ++ [c]) = afterHit g h c rest := by
    simp [setCurrentHand, afterHit, hstate, hhand]
  have hhit : MoveHit g =
      if Score (h.cards ++ [c]) > 21 then .err .bust (afterHit g h c rest)
      else .ok (afterHit g h c rest) := by
    simp only [MoveHit, hcur, hdeck, hset]
  refine ⟨hhit, ?_, ?_, ?_, ?_⟩
  · intro hs hbust
    simp only [playerStep, hcur, hdealer, List.head?_cons, hs, applyMove, hhit, if_pos hbust]
  · rcases le_or_lt g.player.length (g.handIdx + 1) with hle | hlt2
    · simp [standDiscard, MoveStand, afterHit, hstate, List.length_set, hle]
    · have hnle : ¬ g.player.length ≤ g.handIdx + 1 := by omega
      simp [standDiscard, MoveStand, afterHit, hstate, List.length_set, hnle]
  · intro hlt2
    have hnle : ¬ g.player.length ≤ g.handIdx + 1 := by omega
    simp [standDiscard, MoveStand, afterHit, hstate, List.length_set, hnle]
  · intro hge
    simp [standDiscard, MoveStand, afterHit, hstate, List.length_set, GState.next, hge]

/-- Concrete instance of `moveHit_bust_spec`: hitting [Ten♠, Six♠]
with a King busts at 26, and the loop iteration stands, moving to the
dealer's turn after the single recorded `Play` call. -/
theorem moveHit_bust_spec_witness :
    (MoveHit ⟨3, 100, 3/2, [⟨.king, .spade⟩], .playerTurn,
        [⟨[⟨.ten, .spade⟩, ⟨.six, .spade⟩], 100⟩], 0, 100, 0,
        [⟨.nine, .heart⟩, ⟨.five, .club⟩]⟩ =
      if Score ([⟨.ten, .spade⟩, ⟨.six, .spade⟩] ++ [⟨.king, .spade⟩]) > 21 then
        .err .bust (afterHit ⟨3, 100, 3/2, [⟨.king, .spade⟩], .playerTurn,
          [⟨[⟨.ten, .spade⟩, ⟨.six, .spade⟩], 100⟩], 0, 100, 0,
          [⟨.nine, .heart⟩, ⟨.five, .club⟩]⟩ ⟨[⟨.ten, .spade⟩, ⟨.six, .spade⟩], 100⟩
          ⟨.king, .spade⟩ [])
      else .ok (afterHit ⟨3, 100, 3/2, [⟨.king, .spade⟩], .playerTurn,
          [⟨[⟨.ten, .spade⟩, ⟨.six, .spade⟩], 100⟩], 0, 100, 0,
          [⟨.nine, .heart⟩, ⟨.five, .club⟩]⟩ ⟨[⟨.ten, .spade⟩, ⟨.six, .spade⟩], 100⟩
          ⟨.king, .spade⟩ [])) ∧
    playerStep (fun _ _ => MoveK.hit) ⟨3, 100, 3/2, [⟨.king, .spade⟩], .playerTurn,
        [⟨[⟨.ten, .spade⟩, ⟨.six, .spade⟩], 100⟩], 0, 100, 0,
        [⟨.nine, .heart⟩, ⟨.five, .club⟩]⟩ =
      some (standDiscard (afterHit ⟨3, 100, 3/2, [⟨.king, .spade⟩], .playerTurn,
          [⟨[⟨.ten, .spade⟩, ⟨.six, .spade⟩], 100⟩], 0, 100, 0,
          [⟨.nine, .heart⟩, ⟨.five, .club⟩]⟩ ⟨[⟨.ten, .spade⟩, ⟨.six, .spade⟩], 100⟩
          ⟨.king, .spade⟩ []),
        [⟨.ten, .spade⟩, ⟨.six, .spade⟩]) ∧
    (standDiscard (afterHit ⟨3, 100, 3/2, [⟨.king, .spade⟩], .playerTurn,
        [⟨[⟨.ten, .spade⟩, ⟨.six, .spade⟩], 100⟩], 0, 100, 0,
        [⟨.nine, .heart⟩, ⟨.five, .club⟩]⟩ ⟨[⟨.ten, .spade⟩, ⟨.six, .spade⟩], 100⟩
        ⟨.king, .spade⟩ [])).state = .dealerTurn := by
  have h := moveHit_bust_spec (fun _ _ => MoveK.hit)
      ⟨3, 100, 3/2, [⟨.king, .spade⟩], .playerTurn,
        [⟨[⟨.ten, .spade⟩, ⟨.six, .spade⟩], 100⟩], 0, 100, 0,
        [⟨.nine, .heart⟩, ⟨.five, .club⟩]⟩
      ⟨[⟨.ten, .spade⟩, ⟨.six, .spade⟩], 100⟩ ⟨.king, .spade⟩ ⟨.nine, .heart⟩
      [] [⟨.five, .club⟩] rfl rfl rfl rfl
  exact ⟨h.1, h.2.1 rfl (by decide), h.2.2.2.2 (by decide)⟩

/-- Claim C5: when the dealer's two dealt cards are a blackjack the
round settles immediately after the deal — the player strategy's
`Play` is never called (empty snapshot trace) and the dealer policy is
never consulted (count 0); when the player hand is not also a
blackjack the round's balance delta is exactly minus the bet. -/
theorem dealer_blackjack_spec (strat : Strat) (pfuel dfuel : Nat) (g : Game)
    (betAmt : Int) (p1 d1 p2 d2 : Card) (rest : List Card)
    (hbet : 100 ≤ betAmt) (hdeck : g.deck = p1 :: d1 :: p2 :: d2 :: rest)
    (hbj : Blackjack [d1, d2] = true) :
    playRound strat betAmt pfuel dfuel g =
      some (endRound { g with playerBet := betAmt, deck := rest, handIdx := 0,
                              dealer := [d1, d2], player := [⟨[p1, p2], betAmt⟩],
                              state := .playerTurn }, [], 0) ∧
    (Blackjack [p1, p2] = false →
      (endRound { g with playerBet := betAmt, deck := rest, handIdx := 0,
                         dealer := [d1, d2], player := [⟨[p1, p2], betAmt⟩],
                         state := .playerTurn }).balance = g.balance - betAmt) := by
  have hnb : ¬ betAmt < 100 := by omega
  constructor
  · simp [playRound, hnb, deal, hdeck, hbj]
  · intro hpbj
    simp [endRound, handWinnings, hbj, hpbj, sub_eq_add_neg]

/-- Concrete instance of `dealer_blackjack_spec`: deck
[Ten♠, Ace♠, Five♠, King♠] deals the dealer [Ace♠, King♠] (blackjack)
and the player [Ten♠, Five♠]; with bet 100 the round returns no `Play`
calls and balance delta −100. -/
theorem dealer_blackjack_spec_witness :
    playRound (fun _ _ => MoveK.stand) 100 1 1
        ⟨3, 100, 3/2, [⟨.ten, .spade⟩, ⟨.ace, .spade⟩, ⟨.five, .spade⟩, ⟨.king, .spade⟩],
          .playerTurn, [], 0, 0, 0, []⟩ =
      some (endRound ⟨3, 100, 3/2, [], .playerTurn, [⟨[⟨.ten, .spade⟩, ⟨.five, .spade⟩], 100⟩],
        0, 100, 0, [⟨.ace, .spade⟩, ⟨.king, .spade⟩]⟩, [], 0) ∧
    (endRound ⟨3, 100, 3/2, [], .playerTurn, [⟨[⟨.ten, .spade⟩, ⟨.five, .spade⟩], 100⟩],
        0, 100, 0, [⟨.ace, .spade⟩, ⟨.king, .spade⟩]⟩).balance = -100 := by
  have h := dealer_blackjack_spec (fun _ _ => MoveK.stand) 1 1
      ⟨3, 100, 3/2, [⟨.ten, .spade⟩, ⟨.ace, .spade⟩, ⟨.five, .spade⟩, ⟨.king, .spade⟩],
        .playerTurn, [], 0, 0, 0, []⟩
      100 ⟨.ten, .spade⟩ ⟨.ace, .spade⟩ ⟨.five, .spade⟩ ⟨.king, .spade⟩ []
      (by decide) rfl (by decide)
  exact ⟨h.1, by simpa using h.2 (by decide)⟩

/-- Counting a Seven changes nothing but the seen counter. -/
theorem countCard_seven (bi : BasicAI) :
    BasicAI.countCard bi ⟨.seven, .spade⟩ = { bi with seen := bi.seen + 1 } := rfl

/-- Counting `n` Sevens adds `n` to the seen counter. -/
theorem foldl_replicate_seven (n : Nat) (bi : BasicAI) :
    (List.replicate n (⟨.seven, .spade⟩ : Card)).foldl BasicAI.countCard bi =
      { bi with seen := bi.seen + n } := by
  induction n generalizing bi with
  | zero => simp
  | succ k ih =>
    rw [List.replicate_succ, List.foldl_cons, countCard_seven, ih]
    simp
    omega

/-- Every seen count is reachable for the counting strategy: a single
`Results` call reporting `n` Sevens moves the initial state there. -/
theorem reach_seen (n : Nat) : BasicAI.Reach ⟨0, (n : Int), 4⟩ := by
  have h := BasicAI.Reach.results initialBasicAI []
      (List.replicate n ⟨.seven, .spade⟩) BasicAI.Reach.start
  simpa [BasicAI.resultsUpdate, foldl_replicate_seven, initialBasicAI] using h

/-- Claim C9, counterexample: the reachable counting state with 260
cards seen over 4 decks has `decks*52 - seen = -52 < 52`, yet `Bet`
does not divide by zero — Go's truncating division gives the divisor
`-52 / 52 = -1` — and returns 100, contradicting the claim's
"whenever decks*52 minus seen is less than 52" characterization. -/
theorem basicAI_bet_counterexample :
    BasicAI.Reach ⟨0, 260, 4⟩ ∧ ((4 : Int) * 52 - 260 < 52) ∧
    BasicAI.betAmount ⟨0, 260, 4⟩ false = some (100, ⟨0, 260, 4⟩) := by
  refine ⟨by simpa using reach_seen 260, by decide, by decide⟩

/-- Claim C9, amended: whenever `decks*52 - seen` lies strictly
between −52 and 52 the true-count divisor truncates to zero and `Bet`
panics with a division by zero; such a state (e.g. 157 cards seen over
4 decks) is reachable through the strategy's own interface, so `Bet`
is not a total function of the counting state. -/
theorem basicAI_bet_div_zero :
    (∀ bi : BasicAI, -52 < bi.decks * 52 - bi.seen → bi.decks * 52 - bi.seen < 52 →
      bi.betAmount false = none) ∧
    (∃ bi : BasicAI, BasicAI.Reach bi ∧ bi.decks * 52 - bi.seen < 52 ∧
      bi.betAmount false = none) := by
  constructor
  · intro bi h1 h2
    have hdiv : Int.tdiv (bi.decks * 52 - bi.seen) 52 = 0 := by
      rcases le_or_lt 0 (bi.decks * 52 - bi.seen) with hge | hlt
      · exact Int.tdiv_eq_zero_of_lt hge h2
      · have h0 : Int.tdiv (-(bi.decks * 52 - bi.seen)) 52 = 0 :=
          Int.tdiv_eq_zero_of_lt (by omega) (by omega)
        rw [Int.neg_tdiv] at h0
        exact neg_eq_zero.mp h0
    simp [BasicAI.betAmount, hdiv]
  · exact ⟨⟨0, 157, 4⟩, by simpa using reach_seen 157, by decide, by decide⟩

/-- Concrete instance of `basicAI_bet_div_zero`: 157 cards seen over 4
decks (51 unseen, less than one deck) makes `Bet` panic. -/
theorem basicAI_bet_div_zero_witness :
    BasicAI.betAmount ⟨0, 157, 4⟩ false = none :=
  basicAI_bet_div_zero.1 ⟨0, 157, 4⟩ (by decide) (by decide)

/-- The game a move result carries: the mutated game on success or on
a returned error (a bust-mutated or unchanged game), `none` on panic. -/
def Res.game? : Res → Option Game
  | .panic => none
  | .err _ g => some g
  | .ok g => some g

/-- The active-hand invariant: while it is the player's turn the hand
index addresses a hand in the player hand list. -/
def Inv (g : Game) : Prop :=
  g.state = .playerTurn → g.handIdx < g.player.length

/-- One in-round transition: some move, applied as the play loops do,
produced this game (normally or with a returned error). -/
def Step (g g' : Game) : Prop :=
  ∃ mv : MoveK, (applyMove mv g).game? = some g'

/-- `setCurrentHand` never changes the state, the hand index, or the
number of player hands. -/
theorem setCurrentHand_shape (g : Game) (cs : List Card) :
    (setCurrentHand g cs).state = g.state ∧ (setCurrentHand g cs).handIdx = g.handIdx ∧
    (setCurrentHand g cs).player.length = g.player.length := by
  obtain ⟨nD, nH, bp, dk, st, pl, hi, pb, bal, dl⟩ := g
  cases st
  · cases hp : pl[hi]? <;> simp [setCurrentHand, hp, List.length_set]
  · simp [setCurrentHand]
  · simp [setCurrentHand]

/-- A hit (successful or busting) never changes the state, hand index,
or number of player hands. -/
theorem moveHit_shape (g g' : Game) (h : (MoveHit g).game? = some g') :
    g'.state = g.state ∧ g'.handIdx = g.handIdx ∧ g'.player.length = g.player.length := by
  unfold MoveHit at h
  split at h
  · simp [Res.game?] at h
  next cs hc =>
    split at h
    · simp [Res.game?] at h
    next card rest hd =>
      have hg' : g' = setCurrentHand { g with deck := rest } (cs ++ [card]) := by
        dsimp only at h
        split at h <;> simp [Res.game?] at h <;> exact h.symm
      subst hg'
      rcases setCurrentHand_shape { g with deck := rest } (cs ++ [card]) with ⟨h1, h2, h3⟩
      exact ⟨by simpa using h1, by simpa using h2, by simpa using h3⟩

/-- A stand never regresses the round state and preserves the
active-hand invariant. -/
theorem moveStand_shape (g g' : Game) (h : (MoveStand g).game? = some g') :
    g.state.rank ≤ g'.state.rank ∧ (Inv g → Inv g') := by
  obtain ⟨nD, nH, bp, dk, st, pl, hi, pb, bal, dl⟩ := g
  cases st
  · simp only [MoveStand] at h
    by_cases hl : hi + 1 ≥ pl.length
    · rw [if_pos hl] at h
      simp only [Res.game?, Option.some_inj] at h
      subst h
      refine ⟨by simp [GState.rank, GState.next], fun _ hcon => ?_⟩
      simp [GState.next] at hcon
    · rw [if_neg hl] at h
      simp only [Res.game?, Option.some_inj] at h
      subst h
      exact ⟨le_refl _, fun _ _ => by simpa using Nat.lt_of_not_le (by simpa using hl)⟩
  · simp only [MoveStand, Res.game?, Option.some_inj] at h
    subst h
    refine ⟨by simp [GState.rank, GState.next], fun _ hcon => ?_⟩
    simp [GState.next] at hcon
  · simp only [MoveStand, Res.game?, Option.some_inj] at h
    subst h
    exact ⟨le_refl _, fun hi0 => hi0⟩

/-- A split attempt never changes the state or the hand index and
never shrinks the player hand list. -/
theorem moveSplit_shape (g g' : Game) (h : (MoveSplit g).game? = some g') :
    g'.state = g.state ∧ g'.handIdx = g.handIdx ∧ g.player.length ≤ g'.player.length := by
  unfold MoveSplit at h
  split at h
  · simp [Res.game?] at h
  next cs hc =>
    by_cases h2 : cs.length ≠ 2
    · rw [if_pos h2] at h
      simp only [Res.game?, Option.some_inj] at h
      subst h
      exact ⟨rfl, rfl, le_refl _⟩
    · rw [if_neg h2] at h
      by_cases h3 : (cs[0]?).map Card.rank ≠ (cs[1]?).map Card.rank
      · rw [if_pos h3] at h
        simp only [Res.game?, Option.some_inj] at h
        subst h
        exact ⟨rfl, rfl, le_refl _⟩
      · rw [if_neg h3] at h
        split at h
        · simp [Res.game?] at h
        next hh hhand =>
          simp only [Res.game?, Option.some_inj] at h
          subst h
          refine ⟨rfl, rfl, ?_⟩
          simp [List.length_set]

/-- Transport the invariant along shape-preserving field equalities. -/
theorem inv_of_shape {a b : Game} (hst : b.state = a.state) (hidx : b.handIdx = a.handIdx)
    (hlen : a.player.length ≤ b.player.length) (ha : Inv a) : Inv b := by
  intro hbp
  rw [hst] at hbp
  rw [hidx]
  exact lt_of_lt_of_le (ha hbp) hlen

/-- A double never regresses the round state and preserves the
active-hand invariant (it is a hit followed by a stand). -/
theorem moveDouble_shape (g g' : Game) (h : (MoveDouble g).game? = some g') :
    g.state.rank ≤ g'.state.rank ∧ (Inv g → Inv g') := by
  unfold MoveDouble at h
  split at h
  · simp [Res.game?] at h
  next cs hc =>
    by_cases h2 : cs.length ≠ 2
    · rw [if_pos h2] at h
      simp only [Res.game?, Option.some_inj] at h
      subst h
      exact ⟨le_refl _, fun hi0 => hi0⟩
    · rw [if_neg h2] at h
      have hpb : ({ g with playerBet := g.playerBet * 2 } : Game).state = g.state ∧
          ({ g with playerBet := g.playerBet * 2 } : Game).handIdx = g.handIdx ∧
          ({ g with playerBet := g.playerBet * 2 } : Game).player.length = g.player.length :=
        ⟨rfl, rfl, rfl⟩
      split at h
      · simp [Res.game?] at h
      next e g1 hhit =>
        have hs1 := moveHit_shape { g with playerBet := g.playerBet * 2 } g1
          (by rw [hhit]; rfl)
        have hs2 := moveStand_shape g1 g' h
        refine ⟨le_trans (le_of_eq ?_) hs2.1, fun hinv => hs2.2 ?_⟩
        · rw [hs1.1]
        · exact inv_of_shape (by rw [hs1.1]) (by rw [hs1.2.1]) (le_of_eq (by rw [hs1.2.2])) hinv
      next g1 hhit =>
        have hs1 := moveHit_shape { g with playerBet := g.playerBet * 2 } g1
          (by rw [hhit]; rfl)
        have hs2 := moveStand_shape g1 g' h
        refine ⟨le_trans (le_of_eq ?_) hs2.1, fun hinv => hs2.2 ?_⟩
        · rw [hs1.1]
        · exact inv_of_shape (by rw [hs1.1]) (by rw [hs1.2.1]) (le_of_eq (by rw [hs1.2.2])) hinv

/-- Every in-round transition advances (never regresses) the round
state and preserves the active-hand invariant. -/
theorem step_mono_inv (g g' : Game) (h : Step g g') :
    g.state.rank ≤ g'.state.rank ∧ (Inv g → Inv g') := by
  obtain ⟨mv, hmv⟩ := h
  cases mv
  · have hs := moveHit_shape g g' hmv
    exact ⟨le_of_eq (by rw [hs.1]), fun hi0 =>
      inv_of_shape hs.1 hs.2.1 (le_of_eq hs.2.2.symm) hi0⟩
  · exact moveStand_shape g g' hmv
  · exact moveDouble_shape g g' hmv
  · have hs := moveSplit_shape g g' hmv
    exact ⟨le_of_eq (by rw [hs.1]), fun hi0 => inv_of_shape hs.1 hs.2.1 hs.2.2 hi0⟩

/-- Claim C8: a deal resets the round to the player's turn with the
active-hand index 0 (valid for the freshly created single hand); every
state reachable from it by in-round moves satisfies the active-hand
invariant; and the round state only ever advances along
PlayerTurn → DealerTurn → RoundOver, both along the reachable chain
and for every individual in-round transition. -/
theorem round_state_machine (g g0 gf : Game) (hdeal : deal g = some g0)
    (hreach : Relation.ReflTransGen Step g0 gf) :
    g0.state = .playerTurn ∧ g0.handIdx = 0 ∧ Inv gf ∧
    g0.state.rank ≤ gf.state.rank ∧
    (∀ a b : Game, Step a b → a.state.rank ≤ b.state.rank) := by
  have hg0 : g0.state = .playerTurn ∧ g0.handIdx = 0 ∧ Inv g0 := by
    unfold deal at hdeal
    split at hdeal
    · simp only [Option.some_inj] at hdeal
      subst hdeal
      exact ⟨rfl, rfl, fun _ => by simp⟩
    · simp at hdeal
  have main : Inv gf ∧ g0.state.rank ≤ gf.state.rank := by
    induction hreach with
    | refl => exact ⟨hg0.2.2, le_refl _⟩
    | tail hab hbc ih =>
      rcases step_mono_inv _ _ hbc with ⟨hr, hinv⟩
      exact ⟨hinv ih.1, le_trans ih.2 hr⟩
  exact ⟨hg0.1, hg0.2.1, main.1, main.2, fun a b hab => (step_mono_inv a b hab).1⟩

/-- Concrete instance of `round_state_machine`: dealing from
[Two♠, Ten♥, Three♠, Nine♥] then standing once reaches the dealer's
turn with the invariant intact and the state rank advanced. -/
theorem round_state_machine_witness :
    (⟨3, 100, 3/2, [], .playerTurn, [⟨[⟨.two, .spade⟩, ⟨.three, .spade⟩], 100⟩],
        0, 100, 0, [⟨.ten, .heart⟩, ⟨.nine, .heart⟩]⟩ : Game).state = .playerTurn ∧
    (⟨3, 100, 3/2, [], .playerTurn, [⟨[⟨.two, .spade⟩, ⟨.three, .spade⟩], 100⟩],
        0, 100, 0, [⟨.ten, .heart⟩, ⟨.nine, .heart⟩]⟩ : Game).handIdx = 0 ∧
    Inv ⟨3, 100, 3/2, [], .dealerTurn, [⟨[⟨.two, .spade⟩, ⟨.three, .spade⟩], 100⟩],
        1, 100, 0, [⟨.ten, .heart⟩, ⟨.nine, .heart⟩]⟩ ∧
    (⟨3, 100, 3/2, [], .playerTurn, [⟨[⟨.two, .spade⟩, ⟨.three, .spade⟩], 100⟩],
        0, 100, 0, [⟨.ten, .heart⟩, ⟨.nine, .heart⟩]⟩ : Game).state.rank ≤
      (⟨3, 100, 3/2, [], .dealerTurn, [⟨[⟨.two, .spade⟩, ⟨.three, .spade⟩], 100⟩],
        1, 100, 0, [⟨.ten, .heart⟩, ⟨.nine, .heart⟩]⟩ : Game).state.rank ∧
    (∀ a b : Game, Step a b → a.state.rank ≤ b.state.rank) :=
  round_state_machine
    ⟨3, 100, 3/2, [⟨.two, .spade⟩, ⟨.ten, .heart⟩, ⟨.three, .spade⟩, ⟨.nine, .heart⟩],
      .playerTurn, [], 0, 100, 0, []⟩
    ⟨3, 100, 3/2, [], .playerTurn, [⟨[⟨.two, .spade⟩, ⟨.three, .spade⟩], 100⟩],
      0, 100, 0, [⟨.ten, .heart⟩, ⟨.nine, .heart⟩]⟩
    ⟨3, 100, 3/2, [], .dealerTurn, [⟨[⟨.two, .spade⟩, ⟨.three, .spade⟩], 100⟩],
      1, 100, 0, [⟨.ten, .heart⟩, ⟨.nine, .heart⟩]⟩
    rfl
    (Relation.ReflTransGen.single ⟨MoveK.stand, rfl⟩)

end BlackjackSim
